import Mathlib

/-!
Verification of the linkinator broken-link checker against its specification.

This development shallowly embeds the parts of the `avenga/linkinator`
sources that the verified claims are about: the zod option schema
(`src/schema.ts`), the CLI surface (`src/cli.ts` — argument handling, CSV
output, verbosity filtering, exit codes), and — where a source file is not
part of the checked tree — definitions modelled from the specification
(the `LinkResult` data model, the crawl-result aggregation, and the
streaming link extractor).  All definitions are executable; theorems about
them are stated and proved below the definitions.
-/

namespace Linkinator

/-- Modelled from the spec (types.ts is not among the checked sources):
`state` is one of OK, BROKEN, SKIPPED; the CSV writer interpolates the
value as a string, so the enum is a string enum with those names. -/
inductive LinkState where
  | OK
  | BROKEN
  | SKIPPED
deriving DecidableEq, Repr

/-- The string value of a `LinkState`, as interpolated by `cli.ts`. -/
def LinkState.str : LinkState → String
  | .OK => "OK"
  | .BROKEN => "BROKEN"
  | .SKIPPED => "SKIPPED"

/-- Modelled from the spec (types.ts is not among the checked sources):
one per-attempt diagnostic record — "status, headers, body excerpt". -/
structure FailureDetail where
  status : Option Int
  headers : List (String × String)
  bodyExcerpt : Option String
deriving DecidableEq, Repr

/-- Modelled from the spec (types.ts is not among the checked sources):
the record produced for every URL visited.  `status` is `none` when no
HTTP status applies (JS `undefined`), `parent` is `none` for seed items,
`failureDetails` is an optional list of per-attempt diagnostics. -/
structure LinkResult where
  url : String
  status : Option Int
  state : LinkState
  parent : Option String
  failureDetails : Option (List FailureDetail)
deriving DecidableEq, Repr

/-- Modelled from the spec (types.ts is not among the checked sources):
the aggregate returned by `check`. -/
structure CrawlResult where
  passed : Bool
  links : List LinkResult
deriving DecidableEq, Repr

/-- Modelled from the spec (crawler.ts is not among the checked sources):
the crawl result assembled at the end of `check` — "`passed` is true iff
no link has state `BROKEN`", computed from the final links vector alone. -/
def mkCrawlResult (links : List LinkResult) : CrawlResult :=
  { passed := links.all (fun l => l.state != LinkState.BROKEN), links := links }

/-- Modelled from the spec (logger.ts is not among the checked sources):
the numeric log-level enum.  The ordering DEBUG < INFO < WARNING < ERROR
< NONE is forced by the comparisons in `cli.ts` (`verbosity <=
LogLevel.WARNING` shows OK links, `<= LogLevel.INFO` shows skipped ones,
`<= LogLevel.ERROR` shows broken ones, `=== LogLevel.NONE` shows none). -/
inductive LogLevel where
  | DEBUG
  | INFO
  | WARNING
  | ERROR
  | NONE
deriving DecidableEq, Repr

/-- The numeric value of the TS enum member. -/
def LogLevel.num : LogLevel → Nat
  | .DEBUG => 0
  | .INFO => 1
  | .WARNING => 2
  | .ERROR => 3
  | .NONE => 4

/-- JS `<=` on two `LogLevel` enum values. -/
def LogLevel.ble (a b : LogLevel) : Bool := a.num ≤ b.num

/-- JS `>` on two `LogLevel` enum values. -/
def LogLevel.bgt (a b : LogLevel) : Bool := b.num < a.num

/-- The uppercase member names of the `LogLevel` enum, as produced by
`Object.values(LogLevel)` restricted to its string entries (the numeric
entries of the reverse mapping can never equal an uppercased flag
string). -/
def logLevelNames : List String := ["DEBUG", "INFO", "WARNING", "ERROR", "NONE"]

/-- Lookup `LogLevel[name]` for a member name. -/
def logLevelOfName (s : String) : Option LogLevel :=
  if s = "DEBUG" then some LogLevel.DEBUG
  else if s = "INFO" then some LogLevel.INFO
  else if s = "WARNING" then some LogLevel.WARNING
  else if s = "ERROR" then some LogLevel.ERROR
  else if s = "NONE" then some LogLevel.NONE
  else none

/-- The output `Format` enum of `logger.ts` (modelled from the spec and
its use in `cli.ts`: values TEXT, JSON, CSV). -/
inductive Format where
  | TEXT
  | JSON
  | CSV
deriving DecidableEq, Repr

/-- The member names of the `Format` enum. -/
def formatNames : List String := ["TEXT", "JSON", "CSV"]

/-- Lookup `Format[name]` for a member name. -/
def formatOfName (s : String) : Option Format :=
  if s = "TEXT" then some Format.TEXT
  else if s = "JSON" then some Format.JSON
  else if s = "CSV" then some Format.CSV
  else none

/-! ## Option schema (`src/schema.ts`)

The zod chain `z.int().positive().optional().default(d)` maps JS
`undefined` to the default and otherwise accepts exactly the positive
integers.  A JS number that is not `undefined` is modelled as a rational,
which is enough to distinguish integer from non-integer inputs. -/

/-- Value of `DEFAULT_OPTIONS.concurrency` from `src/schema.ts`. -/
def DEFAULT_OPTIONS_concurrency : Int := 100

/-- Value of `DEFAULT_OPTIONS.timeout` from `src/schema.ts` (`20000`). -/
def DEFAULT_OPTIONS_timeout : Int := 20000

/-- The zod chain `z.int().positive().optional().default(d)`:
an absent value takes the default; a present value must be an integer
(`z.int()`) and strictly positive (`.positive()`). -/
def zodIntPositiveDefault (d : Int) (input : Option ℚ) : Except String Int :=
  match input with
  | none => Except.ok d
  | some q =>
    if q.den = 1 then
      if 0 < q.num then Except.ok q.num
      else Except.error "Too small: expected number to be >0"
    else Except.error "Invalid input: expected int, received number"

/-- Embedding of `CommonOptionsSchema.concurrency` from `src/schema.ts`. -/
def parseConcurrencyOption : Option ℚ → Except String Int :=
  zodIntPositiveDefault DEFAULT_OPTIONS_concurrency

/-- Embedding of `CommonOptionsSchema.timeout` from `src/schema.ts`. -/
def parseTimeoutOption : Option ℚ → Except String Int :=
  zodIntPositiveDefault DEFAULT_OPTIONS_timeout

/-- Whether an `Except` result is a success. -/
def isOk {ε α : Type} : Except ε α → Bool
  | Except.ok _ => true
  | Except.error _ => false

/-! ## JSON serialization of failure details

`cli.ts` prints `JSON.stringify(link.failureDetails, null, 2)` into the
CSV failure column.  The serializer below is modelled from the spec
(`JSON.stringify` is a host builtin): a deterministic, executable
rendering of the `FailureDetail` list with two-space indentation;
`undefined` fields are omitted, as `JSON.stringify` does. -/

/-- An opening brace as a string. -/
def lcurly : String := "\x7b"

/-- A closing brace as a string. -/
def rcurly : String := "\x7d"

/-- JSON string escaping for quotes, backslashes and newlines. -/
def jsonEscape (s : String) : String :=
  String.join (s.data.map (fun c =>
    if c = '"' then "\\\""
    else if c = '\\' then "\\\\"
    else if c = '\n' then "\\n"
    else String.singleton c))

/-- A JSON string literal. -/
def jsonStr (s : String) : String := "\"" ++ jsonEscape s ++ "\""

/-- Two-space indentation at nesting depth `n`. -/
def jsonIndent (n : Nat) : String := String.mk (List.replicate (2 * n) ' ')

/-- One serialized `FailureDetail` object at nesting depth `n`, fields
in declaration order, absent (`undefined`) fields omitted. -/
def jsonOfDetail (n : Nat) (d : FailureDetail) : String :=
  let fields := (match d.status with
     | some v => ["\"status\": " ++ toString v]
     | none => []) ++
    ["\"headers\": " ++ lcurly ++
      String.intercalate ","
        (d.headers.map (fun h =>
          "\n" ++ jsonIndent (n + 2) ++ jsonStr h.1 ++ ": " ++ jsonStr h.2)) ++
      (if d.headers.isEmpty then "" else "\n" ++ jsonIndent (n + 1)) ++ rcurly] ++
    (match d.bodyExcerpt with
     | some b => ["\"bodyExcerpt\": " ++ jsonStr b]
     | none => [])
  lcurly ++
    String.intercalate "," (fields.map (fun f => "\n" ++ jsonIndent (n + 1) ++ f)) ++
    "\n" ++ jsonIndent n ++ rcurly

/-- Rendering of `JSON.stringify(details, null, 2)` for a `FailureDetail` list. -/
def jsonStringifyDetails (ds : List FailureDetail) : String :=
  if ds.isEmpty then "[]"
  else
    "[" ++
      String.intercalate ","
        (ds.map (fun d => "\n" ++ jsonIndent 1 ++ jsonOfDetail 1 d)) ++
      "\n]"

/-! ## CLI surface (`src/cli.ts`) -/

/-- JS `String.prototype.toUpperCase` for the ASCII range (flag values
are ASCII; no other code point can uppercase to an enum name). -/
def jsToUpper (s : String) : String := String.mk (s.data.map Char.toUpper)

/-- JS template interpolation of a possibly-`undefined` number
(`${link.status}`): `undefined` prints as the literal text
`undefined`, a number prints in decimal. -/
def jsShowOptInt (v : Option Int) : String :=
  match v with
  | none => "undefined"
  | some n => toString n

/-- JS `link.parent || ''`: `undefined` (and the falsy empty string)
become the empty string. -/
def jsOrEmpty (p : Option String) : String :=
  match p with
  | none => ""
  | some s => s

/-- Embedding of `parseVerbosity` from `src/cli.ts`: `--silent` forces ERROR; an
absent (or falsy empty) `--verbosity` defaults to WARNING; otherwise the
uppercased flag must be a `LogLevel` member name, else the function
throws. -/
def parseVerbosity (silent : Bool) (verbosity : Option String) : Except String LogLevel :=
  if silent then Except.ok LogLevel.ERROR
  else
    match verbosity with
    | none => Except.ok LogLevel.WARNING
    | some v =>
      if v = "" then Except.ok LogLevel.WARNING
      else
        match logLevelOfName (jsToUpper v) with
        | some lv => Except.ok lv
        | none => Except.error "Invalid flag: VERBOSITY must be one of [DEBUG,INFO,WARNING,ERROR,NONE]"

/-- Embedding of `parseFormat` from `src/cli.ts`: an absent (or falsy empty)
`--format` defaults to TEXT; otherwise the uppercased flag must be a
`Format` member name, else the function throws. -/
def parseFormat (format : Option String) : Except String Format :=
  match format with
  | none => Except.ok Format.TEXT
  | some f =>
    if f = "" then Except.ok Format.TEXT
    else
      match formatOfName (jsToUpper f) with
      | some fv => Except.ok fv
      | none => Except.error "Invalid flag: FORMAT must be TEXT, JSON, or CSV"

/-- Embedding of `shouldShowResult` from `src/cli.ts`.  The JS function mutates its
argument: for a BROKEN link at verbosity above DEBUG it assigns
`link.failureDetails = undefined` before returning the visibility
decision.  The embedding passes the state explicitly and returns the
decision together with the (possibly updated) link record. -/
def shouldShowResult (link : LinkResult) (verbosity : LogLevel) : Bool × LinkResult :=
  match link.state with
  | LinkState.OK => (LogLevel.ble verbosity LogLevel.WARNING, link)
  | LinkState.BROKEN =>
    let link1 :=
      if LogLevel.bgt verbosity LogLevel.DEBUG then
        { link with failureDetails := none }
      else link
    (LogLevel.ble verbosity LogLevel.ERROR, link1)
  | LinkState.SKIPPED => (LogLevel.ble verbosity LogLevel.INFO, link)

/-- The CSV failure column source text from `handleLink`:
`link.failureDetails ? JSON.stringify(link.failureDetails, null, 2) : ''`
(a present but empty list is truthy in JS and serializes to `[]`). -/
def csvFailureText (d : Option (List FailureDetail)) : String :=
  match d with
  | none => ""
  | some ds => jsonStringifyDetails ds

/-- The CSV row template from `handleLink` in `src/cli.ts`:
`"${link.url}",${link.status},${link.state},"${link.parent || ''}","${failureDetails}"`. -/
def csvRow (link : LinkResult) : String :=
  "\"" ++ link.url ++ "\"," ++ jsShowOptInt link.status ++ "," ++
    link.state.str ++ ",\"" ++ jsOrEmpty link.parent ++ "\",\"" ++
    csvFailureText link.failureDetails ++ "\""

/-- The CSV branch of `handleLink`: the row is printed only when
`shouldShowResult` returns true, and it is built from the link record
after that call (so after its mutation). -/
def handleLinkCsv (verbosity : LogLevel) (link : LinkResult) : Option String :=
  let sr := shouldShowResult link verbosity
  if sr.1 then some (csvRow sr.2) else none

/-- Everything `main` prints to stdout in CSV mode: the header line,
then one row per link event that passes `shouldShowResult`. -/
def csvOutput (verbosity : LogLevel) (links : List LinkResult) : List String :=
  "url,status,state,parent,failureDetails" :: links.filterMap (handleLinkCsv verbosity)

/-- The filter at the top of `outputResults`
(`result.links.filter(l => shouldShowResult(l, verbosity))`), with the
in-place mutation of each examined link made explicit: the output list
holds the records as mutated by `shouldShowResult`.  In JSON mode this
list replaces `result.links` in the printed result. -/
def filterShow (verbosity : LogLevel) : List LinkResult → List LinkResult
  | [] => []
  | l :: ls =>
    let sr := shouldShowResult l verbosity
    if sr.1 then sr.2 :: filterShow verbosity ls
    else filterShow verbosity ls

/-- The process exit decision of `outputResults`: the JSON and CSV
branches return early, so `process.exit(1)` is reached only in TEXT
format when `result.passed` is false; in every other case `main` runs to
completion and the process exits 0. -/
def outputResultsExit (result : CrawlResult) (format : Format) : Nat :=
  match format with
  | Format.JSON => 0
  | Format.CSV => 0
  | Format.TEXT => if result.passed then 0 else 1

/-- The process exit code of the CLI as a function of its inputs:
a missing LOCATION makes yargs `demandCommand` fail (exit 1); a throw
from `parseVerbosity` or `parseFormat` is an uncaught exception (node
exits 1); otherwise the crawl runs and `outputResults` decides.  The
crawl result is assembled by the spec-modelled `mkCrawlResult`
(crawler.ts is not among the checked sources). -/
def cliExitCode (locations : List String) (silent : Bool)
    (verbosity format : Option String) (links : List LinkResult) : Nat :=
  if locations.isEmpty then 1
  else
    match parseVerbosity silent verbosity with
    | Except.error _ => 1
    | Except.ok _ =>
      match parseFormat format with
      | Except.error _ => 1
      | Except.ok f => outputResultsExit (mkCrawlResult links) f

/-- The `implies`/`conflicts` constraints registered on the yargs parser
in `src/cli.ts` (their semantics per the yargs documentation: `implies(a,
b)` fails when `a` is given without `b`; `conflicts(a, b)` fails when
both are given). -/
def yargsArgChecks (urlRewriteSearch urlRewriteReplace : Option String)
    (silent : Option Bool) (verbosity : Option String) : Except String Unit :=
  if urlRewriteSearch.isSome && urlRewriteReplace.isNone then
    Except.error "Implications failed: url-rewrite-search requires url-rewrite-replace"
  else if urlRewriteReplace.isSome && urlRewriteSearch.isNone then
    Except.error "Implications failed: url-rewrite-replace requires url-rewrite-search"
  else if silent.isSome && verbosity.isSome then
    Except.error "Arguments silent and verbosity are mutually exclusive"
  else Except.ok ()

/-! ## `--skip` argument splitting (`src/cli.ts`)

Both the yargs `coerce` for `--skip` and the `main` body split each
occurrence with `skip.split(/[\s,]+/).filter(Boolean)` and concatenate
the results. -/

/-- The characters matched by the JS regex class `\s`. -/
def jsWhitespaceChars : List Char :=
  [' ', '\t', '\n', '\r', '\x0b', '\x0c', '\u00A0', '\u1680',
   '\u2000', '\u2001', '\u2002', '\u2003', '\u2004', '\u2005', '\u2006',
   '\u2007', '\u2008', '\u2009', '\u200A', '\u2028', '\u2029', '\u202F',
   '\u205F', '\u3000', '\uFEFF']

/-- A character matched by the regex class `[\s,]`. -/
def skipSep (c : Char) : Bool := c = ',' || jsWhitespaceChars.contains c

/-- JS `String.prototype.split` on the regex `sep+`: each maximal run of
separator characters is one delimiter, so the field list can begin or
end with an empty field but never holds an empty field between two
delimiters.  The second argument carries the field being accumulated
(in reverse), `none` while inside a separator run. -/
def jsSplitSepRuns (sep : Char → Bool) : List Char → Option (List Char) → List (List Char)
  | [], none => [[]]
  | [], some acc => [acc.reverse]
  | c :: cs, none =>
    if sep c then jsSplitSepRuns sep cs none
    else jsSplitSepRuns sep cs (some [c])
  | c :: cs, some acc =>
    if sep c then acc.reverse :: jsSplitSepRuns sep cs none
    else jsSplitSepRuns sep cs (some (c :: acc))

/-- The maximal nonempty runs of non-separator characters of a string,
in order: the direct reading of "split on any run of whitespace and/or
commas and discard empty fragments". -/
def sepTokens (sep : Char → Bool) : List Char → Option (List Char) → List (List Char)
  | [], none => []
  | [], some acc => [acc.reverse]
  | c :: cs, none =>
    if sep c then sepTokens sep cs none
    else sepTokens sep cs (some [c])
  | c :: cs, some acc =>
    if sep c then acc.reverse :: sepTokens sep cs none
    else sepTokens sep cs (some (c :: acc))

/-- Embedding of `skip.split(/[\s,]+/).filter(Boolean)` from `src/cli.ts`
(`filter(Boolean)` drops exactly the empty strings, rendered here as
dropping the empty fields before packing each field into a string). -/
def jsSplitSkip (s : String) : List String :=
  (((jsSplitSepRuns skipSep s.toList (some [])).filter
      (fun f => !f.isEmpty)).map (fun f => String.mk f))

/-- The fragments of one `--skip` occurrence as the spec words them:
the maximal runs of characters that are neither whitespace nor commas. -/
def specSkipTokens (s : String) : List String :=
  (sepTokens skipSep s.toList none).map (fun f => String.mk f)

/-- The `linksToSkip` list built by `main` in `src/cli.ts` from the
`--skip` occurrences: each occurrence is split and the fragments of all
occurrences are concatenated in order. -/
def linksToSkipOf (skipArgs : List String) : List String :=
  (skipArgs.map jsSplitSkip).flatten

/-! ## Streaming link extractor

Modelled from the spec (links.ts is not among the checked sources): a
streaming, error-tolerant HTML tokenizer that extracts the URL-bearing
attributes of the tag/attribute table of the spec, never fails on malformed
input, and — per `getLinks` — propagates an I/O error of the underlying
byte stream to its caller. -/

/-- The tag/attribute pairs whose values are link URLs (spec §4.1). -/
def linkAttributePairs : List (String × String) :=
  [("a", "href"), ("area", "href"), ("img", "src"), ("iframe", "src"),
   ("script", "src"), ("source", "src"), ("track", "src"), ("link", "href"),
   ("video", "src"), ("video", "poster"), ("audio", "src"),
   ("audio", "poster"), ("form", "action")]

/-- Tags whose `srcset` attribute is a comma-separated candidate list. -/
def srcsetTags : List String := ["source", "img"]

/-- HTML whitespace. -/
def isWhitespaceHtml (c : Char) : Bool :=
  c = ' ' || c = '\t' || c = '\n' || c = '\r' || c = '\x0c'

/-- Lowercase a reversed character accumulator into a string. -/
def lowerRevStr (racc : List Char) : String :=
  String.mk (racc.reverse.map Char.toLower)

/-- The URLs of a `srcset` candidate list: split on commas, trim leading
whitespace, take each candidate up to its first whitespace (dropping the
width descriptor), and discard empty candidates. -/
def srcsetUrls (v : List Char) : List String :=
  (((sepTokens (fun c => c = ',') v none).map
      (fun cand =>
        (cand.dropWhile isWhitespaceHtml).takeWhile
          (fun c => !isWhitespaceHtml c))).filter
    (fun u => !u.isEmpty)).map (fun u => String.mk u)

/-- The URLs emitted when an attribute value is complete. -/
def emitAttr (tag name : String) (value : List Char) : List String :=
  if name = "srcset" && srcsetTags.contains tag then srcsetUrls value
  else if linkAttributePairs.contains (tag, name) then [String.mk value]
  else []

/-- The tokenizer state carried across chunk boundaries.  Accumulators
named `racc` are kept in reverse; tag and attribute names are lowercased
when complete. -/
inductive HtmlTokState where
  | text
  | tagOpen (racc : List Char)
  | inTag (tag : String)
  | attrName (tag : String) (racc : List Char)
  | afterName (tag : String) (name : String)
  | beforeValue (tag : String) (name : String)
  | quotedValue (tag : String) (name : String) (q : Char) (racc : List Char)
  | unquotedValue (tag : String) (name : String) (racc : List Char)
deriving DecidableEq, Repr

/-- One step of the error-tolerant tokenizer: consume a character,
return the next state and the URLs emitted.  Every character has a
transition, so no input can abort the scan. -/
def tokStep (st : HtmlTokState) (c : Char) : HtmlTokState × List String :=
  match st with
  | HtmlTokState.text =>
    if c = '<' then (HtmlTokState.tagOpen [], []) else (HtmlTokState.text, [])
  | HtmlTokState.tagOpen racc =>
    if c = '>' then (HtmlTokState.text, [])
    else if isWhitespaceHtml c then (HtmlTokState.inTag (lowerRevStr racc), [])
    else (HtmlTokState.tagOpen (c :: racc), [])
  | HtmlTokState.inTag tag =>
    if c = '>' then (HtmlTokState.text, [])
    else if isWhitespaceHtml c || c = '/' then (HtmlTokState.inTag tag, [])
    else (HtmlTokState.attrName tag [c], [])
  | HtmlTokState.attrName tag racc =>
    if c = '=' then (HtmlTokState.beforeValue tag (lowerRevStr racc), [])
    else if isWhitespaceHtml c then (HtmlTokState.afterName tag (lowerRevStr racc), [])
    else if c = '>' then (HtmlTokState.text, [])
    else if c = '/' then (HtmlTokState.inTag tag, [])
    else (HtmlTokState.attrName tag (c :: racc), [])
  | HtmlTokState.afterName tag name =>
    if c = '=' then (HtmlTokState.beforeValue tag name, [])
    else if isWhitespaceHtml c then (HtmlTokState.afterName tag name, [])
    else if c = '>' then (HtmlTokState.text, [])
    else if c = '/' then (HtmlTokState.inTag tag, [])
    else (HtmlTokState.attrName tag [c], [])
  | HtmlTokState.beforeValue tag name =>
    if c = '"' || c = '\'' then (HtmlTokState.quotedValue tag name c [], [])
    else if isWhitespaceHtml c then (HtmlTokState.beforeValue tag name, [])
    else if c = '>' then (HtmlTokState.text, [])
    else (HtmlTokState.unquotedValue tag name [c], [])
  | HtmlTokState.quotedValue tag name q racc =>
    if c = q then (HtmlTokState.inTag tag, emitAttr tag name racc.reverse)
    else (HtmlTokState.quotedValue tag name q (c :: racc), [])
  | HtmlTokState.unquotedValue tag name racc =>
    if c = '>' then (HtmlTokState.text, emitAttr tag name racc.reverse)
    else if isWhitespaceHtml c then (HtmlTokState.inTag tag, emitAttr tag name racc.reverse)
    else (HtmlTokState.unquotedValue tag name (c :: racc), [])

/-- Run the tokenizer over one chunk of bytes. -/
def tokChunk : HtmlTokState → List Char → HtmlTokState × List String
  | st, [] => (st, [])
  | st, c :: cs =>
    let r := tokStep st c
    let rest := tokChunk r.1 cs
    (rest.1, r.2 ++ rest.2)

/-- An event of the response body stream: a chunk of bytes, or an I/O
error raised by the underlying stream. -/
inductive StreamEvent where
  | chunk (bytes : String)
  | ioError (message : String)
deriving DecidableEq, Repr

/-- Whether a stream event is a data chunk. -/
def StreamEvent.isChunk : StreamEvent → Bool
  | StreamEvent.chunk _ => true
  | StreamEvent.ioError _ => false

/-- The extraction loop of `getLinks`: feed each chunk to the tokenizer,
stop at end of stream with the collected URLs, and reject with the
stream error as soon as one is raised. -/
def getLinksGo (st : HtmlTokState) (acc : List String) :
    List StreamEvent → Except String (List String)
  | [] => Except.ok acc
  | StreamEvent.ioError m :: _ => Except.error m
  | StreamEvent.chunk s :: rest =>
    let r := tokChunk st s.toList
    getLinksGo r.1 (acc ++ r.2) rest

/-- Modelled from the spec (links.ts is not among the checked sources):
`getLinks` consumes the body stream and resolves with the discovered
URLs, or rejects with the I/O error raised by the stream. -/
def getLinks (events : List StreamEvent) : Except String (List String) :=
  getLinksGo HtmlTokState.text [] events

/-- Joining strings with comma separators. -/
def commaJoin : List String → String
  | [] => ""
  | [x] => x
  | x :: xs => x ++ "," ++ commaJoin xs

/-- The five CSV columns of a link row as the spec describes them: the
url, the HTTP status, the state, the parent, and the failureDetails
JSON; url, parent and failureDetails enclosed in double quotes. -/
def csvColumns (l : LinkResult) : List String :=
  ["\"" ++ l.url ++ "\"", jsShowOptInt l.status, l.state.str,
   "\"" ++ jsOrEmpty l.parent ++ "\"",
   "\"" ++ csvFailureText l.failureDetails ++ "\""]

/-- The CSV row shape claim C10 asserts: only url and parent quoted, so
the failureDetails column would be unquoted. -/
def csvRowOnlyUrlParentQuoted (l : LinkResult) : String :=
  "\"" ++ l.url ++ "\"," ++ jsShowOptInt l.status ++ "," ++ l.state.str ++
    ",\"" ++ jsOrEmpty l.parent ++ "\"," ++ csvFailureText l.failureDetails

/-- A sample BROKEN link carrying failure diagnostics. -/
def sampleBrokenLink : LinkResult :=
  { url := "http://u", status := some 404, state := LinkState.BROKEN,
    parent := some "http://parent",
    failureDetails := some [{ status := some 404, headers := [], bodyExcerpt := none }] }

/-- The accumulator of `jsSplitSepRuns`, normalized to the accumulator
discipline of `sepTokens`: an empty current field is no pending token. -/
def normAcc : Option (List Char) → Option (List Char)
  | none => none
  | some [] => none
  | some acc => some acc

/-! ## Helper lemmas -/

/-- Comparison `LogLevel.bgt v DEBUG` holds exactly when `v` is not DEBUG, since
DEBUG is the smallest enum value. -/
theorem bgt_DEBUG_iff (v : LogLevel) :
    LogLevel.bgt v LogLevel.DEBUG = true ↔ v ≠ LogLevel.DEBUG := by
  cases v <;> simp [LogLevel.bgt, LogLevel.num]

/-- An extraction run over chunk-only events always completes. -/
theorem getLinksGo_ok_of_chunks (events : List StreamEvent) :
    ∀ (st : HtmlTokState) (acc : List String),
      (∀ e ∈ events, e.isChunk = true) →
      ∃ links, getLinksGo st acc events = Except.ok links := by
  induction events with
  | nil => intro st acc _; exact ⟨acc, rfl⟩
  | cons e rest ih =>
    intro st acc h
    cases e with
    | chunk s =>
      simpa [getLinksGo] using
        ih (tokChunk st s.toList).1 (acc ++ (tokChunk st s.toList).2)
          (fun x hx => h x (List.mem_cons_of_mem _ hx))
    | ioError m =>
      exact absurd (h _ (List.mem_cons_self _ _)) (by simp [StreamEvent.isChunk])

/-- An extraction run hitting an I/O error after chunk-only events
rejects with that error. -/
theorem getLinksGo_error_at (pre : List StreamEvent) :
    ∀ (st : HtmlTokState) (acc : List String) (msg : String)
      (rest : List StreamEvent),
      (∀ e ∈ pre, e.isChunk = true) →
      getLinksGo st acc (pre ++ StreamEvent.ioError msg :: rest) =
        Except.error msg := by
  induction pre with
  | nil => intro st acc msg rest _; rfl
  | cons e pre ih =>
    intro st acc msg rest h
    cases e with
    | chunk s =>
      simpa [getLinksGo] using
        ih (tokChunk st s.toList).1 (acc ++ (tokChunk st s.toList).2) msg rest
          (fun x hx => h x (List.mem_cons_of_mem _ hx))
    | ioError m =>
      exact absurd (h _ (List.mem_cons_self _ _)) (by simp [StreamEvent.isChunk])

/-- The CSV rows of a run are exactly the `csvRow` renderings of the
links that pass `shouldShowResult` (in their post-call state). -/
theorem filterMap_handleLinkCsv (v : LogLevel) (links : List LinkResult) :
    links.filterMap (handleLinkCsv v) = (filterShow v links).map csvRow := by
  induction links with
  | nil => rfl
  | cons l ls ih =>
    simp only [List.filterMap_cons, handleLinkCsv, filterShow]
    by_cases h : (shouldShowResult l v).1 <;> simp [h, ih]

/-- Every link surviving the `outputResults` filter is the
`shouldShowResult` image of an input link. -/
theorem mem_filterShow (v : LogLevel) (links : List LinkResult) (x : LinkResult) :
    x ∈ filterShow v links → ∃ y ∈ links, x = (shouldShowResult y v).2 := by
  induction links with
  | nil => simp [filterShow]
  | cons l ls ih =>
    simp only [filterShow]
    by_cases h : (shouldShowResult l v).1
    · simp only [h, if_pos]
      intro hx
      rcases List.mem_cons.mp hx with h1 | h2
      · exact ⟨l, List.mem_cons_self _ _, h1⟩
      · rcases ih h2 with ⟨y, hy, hxy⟩
        exact ⟨y, List.mem_cons_of_mem _ hy, hxy⟩
    · simp only [h, if_neg]
      intro hx
      rcases ih (by simpa using hx) with ⟨y, hy, hxy⟩
      exact ⟨y, List.mem_cons_of_mem _ hy, hxy⟩

/-- Case analysis of `shouldShowResult`: a BROKEN link has its
`failureDetails` erased exactly when the verbosity is above DEBUG, and
links in other states are returned unchanged. -/
theorem shouldShowResult_cases (v : LogLevel) (l : LinkResult) :
    (l.state = LinkState.BROKEN → v ≠ LogLevel.DEBUG →
      (shouldShowResult l v).2 = { l with failureDetails := none }) ∧
    (l.state = LinkState.BROKEN → v = LogLevel.DEBUG →
      (shouldShowResult l v).2 = l) ∧
    (l.state ≠ LinkState.BROKEN → (shouldShowResult l v).2 = l) := by
  obtain ⟨u, st, sta, p, fd⟩ := l
  cases sta with
  | OK => exact ⟨fun h _ => (nomatch h), fun h _ => (nomatch h), fun _ => rfl⟩
  | BROKEN =>
    refine ⟨fun _ hv => ?_, fun _ hv => ?_, fun h => absurd rfl h⟩
    · simp [shouldShowResult, (bgt_DEBUG_iff v).mpr hv]
    · subst hv
      simp [shouldShowResult, LogLevel.bgt, LogLevel.num]
  | SKIPPED => exact ⟨fun h _ => (nomatch h), fun h _ => (nomatch h), fun _ => rfl⟩

/-- When the verbosity is above DEBUG and, as the spec has it, only
BROKEN links carry diagnostics, no link surviving the output filter
carries `failureDetails`. -/
theorem filterShow_details_none (v : LogLevel) (links : List LinkResult)
    (hv : v ≠ LogLevel.DEBUG)
    (h : ∀ x ∈ links, x.state ≠ LinkState.BROKEN → x.failureDetails = none) :
    ∀ x ∈ filterShow v links, x.failureDetails = none := by
  intro x hx
  rcases mem_filterShow v links x hx with ⟨y, hy, rfl⟩
  by_cases hb : y.state = LinkState.BROKEN
  · rw [(shouldShowResult_cases v y).1 hb hv]
  · rw [(shouldShowResult_cases v y).2.2 hb]
    exact h y hy hb

/-! ## Claim theorems -/

/-- C1.  For every crawl, the `CrawlResult` returned by `check` has
`passed = true` iff no element of its `links` vector has state BROKEN,
and the result carries exactly the final links vector, so `passed` is a
pure function of that vector.  (The crawl-result assembly is modelled
from the spec; crawler.ts is not among the checked sources.) -/
theorem passed_iff_no_broken (links : List LinkResult) :
    ((mkCrawlResult links).passed = true ↔
      ∀ l ∈ links, l.state ≠ LinkState.BROKEN) ∧
    (mkCrawlResult links).links = links := by
  refine ⟨?_, rfl⟩
  simp [mkCrawlResult, List.all_eq_true]

/-- C2.  The spec and the `--timeout` help text in `cli.ts` say the
timeout defaults to 0 and that 0 (no deadline) is accepted; the option
schema in `schema.ts` contradicts this: `z.int().positive()` rejects 0
and the default is `DEFAULT_OPTIONS.timeout = 20000`.  This theorem
evaluates the schema at the failing input. -/
theorem timeout_schema_rejects_zero :
    isOk (parseTimeoutOption (some 0)) = false ∧
    parseTimeoutOption none = Except.ok 20000 ∧
    DEFAULT_OPTIONS_timeout ≠ 0 := by
  refine ⟨?_, rfl, by decide⟩
  rfl

/-- C8.  The concurrency option defaults to 100, and a supplied value is
accepted exactly when it is a positive integer: zero, negative and
non-integer numbers are rejected by the schema (hence before any crawl
work starts). -/
theorem concurrency_default_and_positive_int :
    parseConcurrencyOption none = Except.ok 100 ∧
    ∀ q : ℚ, isOk (parseConcurrencyOption (some q)) = true ↔
      (q.den = 1 ∧ 0 < q.num) := by
  refine ⟨rfl, ?_⟩
  intro q
  by_cases hd : q.den = 1 <;> by_cases hn : 0 < q.num <;>
    simp [parseConcurrencyOption, zodIntPositiveDefault, hd, hn, isOk]

/-- C6.  The yargs constraints registered in `cli.ts` make
`--url-rewrite-search` and `--url-rewrite-replace` require each other
(supplying exactly one is an argument error) and make `--silent` and
`--verbosity` mutually exclusive. -/
theorem rewrite_flags_and_silent_verbosity_conflicts
    (s r : Option String) (si : Option Bool) (v : Option String) :
    ((s.isSome = true ∧ r = none) ∨ (r.isSome = true ∧ s = none) →
      isOk (yargsArgChecks s r si v) = false) ∧
    (si.isSome = true → v.isSome = true →
      isOk (yargsArgChecks s r si v) = false) := by
  constructor
  · rintro (⟨hs, hr⟩ | ⟨hr, hs⟩) <;>
      cases s <;> cases r <;> simp_all [yargsArgChecks, isOk]
  · intro hsi hv
    cases s <;> cases r <;> simp_all [yargsArgChecks, isOk]

/-- C6 witness: concrete applications of the conflict theorem. -/
theorem rewrite_flags_and_silent_verbosity_conflicts_witness :
    isOk (yargsArgChecks (some "legacy") none none none) = false ∧
    isOk (yargsArgChecks none none (some true) (some "info")) = false :=
  ⟨(rewrite_flags_and_silent_verbosity_conflicts (some "legacy") none none none).1
      (Or.inl ⟨rfl, rfl⟩),
    (rewrite_flags_and_silent_verbosity_conflicts none none (some true) (some "info")).2
      rfl rfl⟩

/-- C3.  Link extraction never aborts on malformed input: over a stream
of arbitrary byte chunks it always terminates at end of stream with a
result, and an I/O error raised by the underlying stream is propagated:
`getLinks` rejects with exactly that error.  (The extractor is modelled
from the spec; links.ts is not among the checked sources.) -/
theorem getLinks_total_and_error_propagation (events : List StreamEvent) :
    ((∀ e ∈ events, e.isChunk = true) →
      ∃ links, getLinks events = Except.ok links) ∧
    (∀ (pre : List StreamEvent) (msg : String) (rest : List StreamEvent),
      events = pre ++ StreamEvent.ioError msg :: rest →
      (∀ e ∈ pre, e.isChunk = true) →
      getLinks events = Except.error msg) := by
  constructor
  · intro h
    exact getLinksGo_ok_of_chunks events HtmlTokState.text [] h
  · intro pre msg rest hev hpre
    rw [hev]
    exact getLinksGo_error_at pre HtmlTokState.text [] msg rest hpre

/-- C3 witness: on a malformed-HTML chunk extraction completes, and the
stream of the repository test (`test.links.ts`) — a chunk followed by
the error `StreamError` — is rejected with exactly that error. -/
theorem getLinks_total_and_error_propagation_witness :
    (∃ links,
      getLinks [StreamEvent.chunk "<<<a , href=  \x00 garbage"] =
        Except.ok links) ∧
    getLinks [StreamEvent.chunk "<a href=", StreamEvent.ioError "StreamError"] =
      Except.error "StreamError" :=
  ⟨(getLinks_total_and_error_propagation
      [StreamEvent.chunk "<<<a , href=  \x00 garbage"]).1 (by decide),
    (getLinks_total_and_error_propagation
      [StreamEvent.chunk "<a href=", StreamEvent.ioError "StreamError"]).2
      [StreamEvent.chunk "<a href="] "StreamError" [] rfl (by decide)⟩


/-- C9.  `shouldShowResult` is not pure on BROKEN links: whenever the
verbosity is stricter than DEBUG it erases the `failureDetails` of the
link record (returning the mutated record) before its visibility
verdict, while OK and SKIPPED links are returned untouched;
consequently, since per the spec only BROKEN links carry diagnostics,
neither the JSON output links (`filterShow`) nor the CSV rows (the
`csvRow` renderings of exactly those links) contain failure diagnostics
unless the verbosity is debug. -/
theorem broken_details_stripped_unless_debug
    (v : LogLevel) (l : LinkResult) (links : List LinkResult) :
    (l.state = LinkState.BROKEN → v ≠ LogLevel.DEBUG →
      (shouldShowResult l v).2 = { l with failureDetails := none }) ∧
    (l.state ≠ LinkState.BROKEN → (shouldShowResult l v).2 = l) ∧
    (csvOutput v links).tail = (filterShow v links).map csvRow ∧
    (v ≠ LogLevel.DEBUG →
      (∀ x ∈ links, x.state ≠ LinkState.BROKEN → x.failureDetails = none) →
      ∀ x ∈ filterShow v links,
        x.failureDetails = none ∧ csvFailureText x.failureDetails = "") := by
  refine ⟨(shouldShowResult_cases v l).1, (shouldShowResult_cases v l).2.2,
    filterMap_handleLinkCsv v links, fun hv h x hx => ?_⟩
  have hd := filterShow_details_none v links hv h x hx
  exact ⟨hd, by rw [hd]; rfl⟩

/-- C9 witness: at verbosity WARNING the sample BROKEN link loses its
diagnostics, and the filtered output of a run over it carries none. -/
theorem broken_details_stripped_unless_debug_witness :
    (shouldShowResult sampleBrokenLink LogLevel.WARNING).2 =
      { sampleBrokenLink with failureDetails := none } ∧
    ∀ x ∈ filterShow LogLevel.WARNING [sampleBrokenLink],
      x.failureDetails = none :=
  ⟨(broken_details_stripped_unless_debug LogLevel.WARNING sampleBrokenLink []).1
      rfl (by decide),
    fun x hx =>
      ((broken_details_stripped_unless_debug LogLevel.WARNING sampleBrokenLink
          [sampleBrokenLink]).2.2.2 (by decide) (by decide) x hx).1⟩

/-- C5.  In CSV mode the CLI prints the header line
`url,status,state,parent,failureDetails` first and then one row per
displayed link; each row is the comma-join of five columns — the quoted
url, the status, the state name, the quoted parent, and the
failureDetails JSON (`JSON.stringify(…, null, 2)`, empty when absent)
enclosed in double quotes. -/
theorem csv_header_then_rows (v : LogLevel) (links : List LinkResult) :
    csvOutput v links =
      "url,status,state,parent,failureDetails" ::
        (filterShow v links).map csvRow ∧
    ∀ l : LinkResult, csvRow l = commaJoin (csvColumns l) := by
  constructor
  · simp [csvOutput, filterMap_handleLinkCsv]
  · intro l
    apply String.ext
    simp only [csvRow, commaJoin, csvColumns, String.data_append]
    simp [List.append_assoc]

/-- C10 counterexample.  The claim says only the url and parent columns
are wrapped in double quotes; but the failureDetails column is also
quoted: on a status-less SKIPPED link the actual row ends in a quoted
empty column, not an unquoted one. -/
theorem csv_failure_column_also_quoted_counterexample :
    csvRow { url := "u", status := none, state := LinkState.SKIPPED,
             parent := some "p", failureDetails := none } =
      "\"u\",undefined,SKIPPED,\"p\",\"\"" ∧
    csvRow { url := "u", status := none, state := LinkState.SKIPPED,
             parent := some "p", failureDetails := none } ≠
      csvRowOnlyUrlParentQuoted
        { url := "u", status := none, state := LinkState.SKIPPED,
          parent := some "p", failureDetails := none } := by
  refine ⟨rfl, ?_⟩
  decide

/-- C10 (amended).  For every link whose status is absent the status
column is the literal unquoted text `undefined`; the url, parent and
failureDetails columns are wrapped in double quotes, while the status
and state columns are unquoted. -/
theorem csv_status_undefined_unquoted (l : LinkResult)
    (h : l.status = none) :
    csvRow l =
      "\"" ++ l.url ++ "\"" ++ "," ++ "undefined" ++ "," ++ l.state.str ++
        "," ++ "\"" ++ jsOrEmpty l.parent ++ "\"" ++ "," ++ "\"" ++
        csvFailureText l.failureDetails ++ "\"" := by
  apply String.ext
  simp only [csvRow, h, jsShowOptInt, String.data_append]
  simp [List.append_assoc]

/-- C10 witness: the amended row shape at a concrete status-less link. -/
theorem csv_status_undefined_unquoted_witness :
    csvRow { url := "u", status := none, state := LinkState.SKIPPED,
             parent := some "p", failureDetails := none } =
      "\"" ++ "u" ++ "\"" ++ "," ++ "undefined" ++ "," ++
        LinkState.SKIPPED.str ++ "," ++ "\"" ++ "p" ++ "\"" ++ "," ++
        "\"" ++ "" ++ "\"" :=
  csv_status_undefined_unquoted
    { url := "u", status := none, state := LinkState.SKIPPED,
      parent := some "p", failureDetails := none } rfl

/-- Helper: `mkCrawlResult` sets `passed` iff no link is BROKEN. -/
theorem mkCrawlResult_passed_iff (links : List LinkResult) :
    (mkCrawlResult links).passed = true ↔
      ∀ l ∈ links, l.state ≠ LinkState.BROKEN := by
  simp [mkCrawlResult, List.all_eq_true]

/-- C4 counterexample.  With `--format json` (all options valid, a
location given) and a BROKEN link in the result, the CLI exits 0, not 1:
`outputResults` returns before the `process.exit(1)` call in JSON and
CSV modes. -/
theorem json_format_exit_zero_despite_broken :
    sampleBrokenLink.state = LinkState.BROKEN ∧
    cliExitCode ["loc"] false none (some "json") [sampleBrokenLink] = 0 :=
  ⟨rfl, by decide⟩

/-- C4 (amended).  The CLI exits 0 on `passed = true` and non-zero on
option or argument errors (invalid format, invalid verbosity, missing
LOCATION); it exits 1 on a BROKEN link only in TEXT format (the
default), while with `--format` JSON or CSV it exits 0 even when links
are broken. -/
theorem exit_codes_by_format (locs : List String) (silent : Bool)
    (verb fmt : Option String) (links : List LinkResult) :
    (locs ≠ [] → parseFormat fmt = Except.ok Format.TEXT →
      isOk (parseVerbosity silent verb) = true →
      (cliExitCode locs silent verb fmt links = 0 ↔
        ∀ l ∈ links, l.state ≠ LinkState.BROKEN) ∧
      ((∃ l ∈ links, l.state = LinkState.BROKEN) →
        cliExitCode locs silent verb fmt links = 1)) ∧
    (locs ≠ [] →
      (parseFormat fmt = Except.ok Format.JSON ∨
        parseFormat fmt = Except.ok Format.CSV) →
      isOk (parseVerbosity silent verb) = true →
      cliExitCode locs silent verb fmt links = 0) ∧
    (locs = [] → cliExitCode locs silent verb fmt links = 1) ∧
    (isOk (parseVerbosity silent verb) = false →
      cliExitCode locs silent verb fmt links = 1) ∧
    (locs ≠ [] → isOk (parseFormat fmt) = false →
      cliExitCode locs silent verb fmt links = 1) := by
  have hne : locs ≠ [] → locs.isEmpty = false := by
    cases locs with
    | nil => intro h; exact absurd rfl h
    | cons a as => intro _; rfl
  refine ⟨?_, ?_, ?_, ?_, ?_⟩
  · intro hl hfmt hv
    cases hpv : parseVerbosity silent verb with
    | error e => rw [hpv] at hv; exact absurd hv (by simp [isOk])
    | ok lv =>
      constructor
      · rw [show cliExitCode locs silent verb fmt links =
            outputResultsExit (mkCrawlResult links) Format.TEXT by
              simp [cliExitCode, hne hl, hpv, hfmt]]
        simp only [outputResultsExit]
        by_cases hp : (mkCrawlResult links).passed
        · simpa [hp] using (mkCrawlResult_passed_iff links).mp hp
        · have : ¬∀ l ∈ links, l.state ≠ LinkState.BROKEN := fun hall =>
            hp ((mkCrawlResult_passed_iff links).mpr hall)
          simp [hp, this]
      · rintro ⟨l, hl2, hb⟩
        have hp : (mkCrawlResult links).passed = false := by
          by_contra hc
          have := (mkCrawlResult_passed_iff links).mp
            (by revert hc; cases (mkCrawlResult links).passed <;> simp)
          exact this l hl2 hb
        simp [cliExitCode, hne hl, hpv, hfmt, outputResultsExit, hp]
  · intro hl hfmt hv
    cases hpv : parseVerbosity silent verb with
    | error e => rw [hpv] at hv; exact absurd hv (by simp [isOk])
    | ok lv =>
      rcases hfmt with hfmt | hfmt <;>
        simp [cliExitCode, hne hl, hpv, hfmt, outputResultsExit]
  · intro hl
    simp [cliExitCode, hl]
  · intro hv
    cases hpv : parseVerbosity silent verb with
    | error e => by_cases hl : locs.isEmpty <;> simp [cliExitCode, hl, hpv]
    | ok lv => rw [hpv] at hv; exact absurd hv (by simp [isOk])
  · intro hl hf
    cases hpf : parseFormat fmt with
    | error e =>
      cases hpv : parseVerbosity silent verb with
      | error e2 => by_cases h : locs.isEmpty <;> simp [cliExitCode, h, hpv]
      | ok lv => simp [cliExitCode, hne hl, hpv, hpf]
    | ok fv => rw [hpf] at hf; exact absurd hf (by simp [isOk])

/-- C4 witness: concrete exit codes — 1 for a TEXT run with a broken
link, 1 for a missing LOCATION, 1 for an invalid verbosity, 1 for an
invalid format, and 0 for a CSV run despite a broken link. -/
theorem exit_codes_by_format_witness :
    cliExitCode ["loc"] false none none [sampleBrokenLink] = 1 ∧
    cliExitCode [] false none none [] = 1 ∧
    cliExitCode ["loc"] false (some "bogus") none [] = 1 ∧
    cliExitCode ["loc"] false none (some "yaml") [] = 1 ∧
    cliExitCode ["loc"] false none (some "csv") [sampleBrokenLink] = 0 :=
  ⟨((exit_codes_by_format ["loc"] false none none [sampleBrokenLink]).1
      (by decide) rfl rfl).2 ⟨sampleBrokenLink, List.mem_cons_self _ _, rfl⟩,
    (exit_codes_by_format [] false none none []).2.2.1 rfl,
    (exit_codes_by_format ["loc"] false (some "bogus") none []).2.2.2.1
      (by decide),
    (exit_codes_by_format ["loc"] false none (some "yaml") []).2.2.2.2
      (by decide) (by decide),
    (exit_codes_by_format ["loc"] false none (some "csv")
      [sampleBrokenLink]).2.1 (by decide) (Or.inr rfl) rfl⟩

/-- Dropping the empty fields of the regex-runs split yields exactly the
maximal nonempty runs of non-separator characters. -/
theorem filter_jsSplitSepRuns (sep : Char → Bool) (l : List Char) :
    ∀ m : Option (List Char),
      (jsSplitSepRuns sep l m).filter (fun f => !f.isEmpty) =
        sepTokens sep l (normAcc m) := by
  induction l with
  | nil =>
    intro m
    match m with
    | none => rfl
    | some [] => rfl
    | some (a :: as) =>
      have hne : (as.reverse ++ [a]).isEmpty = false := by
        simp [List.isEmpty_iff]
      simp [jsSplitSepRuns, sepTokens, normAcc, List.filter, hne]
  | cons c cs ih =>
    intro m
    match m with
    | none =>
      by_cases h : sep c
      · simpa [jsSplitSepRuns, sepTokens, h] using ih none
      · simpa [jsSplitSepRuns, sepTokens, h] using ih (some [c])
    | some [] =>
      by_cases h : sep c
      · simpa [jsSplitSepRuns, sepTokens, normAcc, h, List.filter] using ih none
      · simpa [jsSplitSepRuns, sepTokens, normAcc, h] using ih (some [c])
    | some (a :: as) =>
      by_cases h : sep c
      · simpa [jsSplitSepRuns, sepTokens, normAcc, h, List.filter] using ih none
      · simpa [jsSplitSepRuns, sepTokens, normAcc, h] using ih (some (c :: a :: as))

/-- The source split (`split(/[\s,]+/).filter(Boolean)`) agrees with the
spec reading of `--skip` splitting. -/
theorem jsSplitSkip_eq_specSkipTokens (s : String) :
    jsSplitSkip s = specSkipTokens s := by
  unfold jsSplitSkip specSkipTokens
  rw [filter_jsSplitSepRuns skipSep s.toList (some [])]
  rfl

/-- C7.  Every `--skip` occurrence is split on each maximal run of
whitespace and/or comma characters, empty fragments are discarded, and
the fragments of all occurrences are concatenated in order into the
`linksToSkip` list handed to `check`. -/
theorem skip_fragments_concatenated (skipArgs : List String) :
    linksToSkipOf skipArgs = (skipArgs.map specSkipTokens).flatten ∧
    ∀ s : String, jsSplitSkip s = specSkipTokens s := by
  have hfun : jsSplitSkip = specSkipTokens := funext jsSplitSkip_eq_specSkipTokens
  exact ⟨by rw [linksToSkipOf, hfun], fun s => by rw [hfun]⟩

end Linkinator
